import Mathlib

/-!
Shallow embedding of the lexer implemented in `src/src/lib.rs` of the
repository (the complete, compiling snapshot; `src/src/main.rs` is an
earlier, syntactically broken copy and is not modelled).

Modelling conventions:
* A Rust `Peekable<Chars>` cursor is a `List Char`; each scanner returns
  its result together with the remaining character list.
* Rust `char::to_digit(10)` accepts exactly the ASCII digits, while
  `char::is_numeric` accepts every Unicode numeric character — a strictly
  larger set. The model preserves this gap: `charIsNumeric` is exact on
  ASCII and contains the Arabic-Indic digit block U+0660-U+0669 as the
  modelled non-ASCII numeric characters (the full Unicode tables are not
  reproduced; theorems that reach beyond ASCII use only this block, and
  theorems quantifying over arbitrary characters restrict the relevant
  characters to ASCII, where the model agrees with Rust exactly).
* The `i32` accumulator of `lex_number` uses wrap-around (release-mode)
  two's-complement arithmetic, via `wrap32`.
* Operations that can panic (`Option::unwrap` in `lex_operator` and on
  `char::to_digit` in `lex_number`) are modelled with `Option`: an
  `Option.none` result of a scanner or of `lex_helper`/`lex` stands for
  an aborted pass. The `to_digit` abort is reachable: the number
  scanner's `next_if(|&c| c.is_numeric())` consumes characters outside
  the domain of `to_digit(10)`.
-/

namespace Lexer

/-- The five keyword kinds of the language, plus the internal `None`
sentinel returned by `Keyword::from_str` on a failed lookup
(`lib.rs` lines 11-19). -/
inductive Keyword where
  | Define
  | True
  | False
  | None
  | If
  | Null
deriving DecidableEq, Repr

/-- The static keyword table `KEYWORDS` (`lib.rs` lines 3-9). -/
def KEYWORDS : List (String × Keyword) :=
  [("define", Keyword.Define), ("true", Keyword.True), ("false", Keyword.False),
   ("if", Keyword.If), ("null", Keyword.Null)]

/-- The linear scan of the `for p in KEYWORDS` loop inside
`Keyword::from_str` (`lib.rs` lines 23-27). -/
def Keyword.from_str_go : List (String × Keyword) → String → Keyword
  | [], _ => Keyword.None
  | p :: ps, s => if s = p.1 then p.2 else Keyword.from_str_go ps s

/-- `Keyword::from_str` (`lib.rs` lines 22-29): first match in the table,
`Keyword::None` when no entry matches. -/
def Keyword.from_str (s : String) : Keyword :=
  Keyword.from_str_go KEYWORDS s

/-- The operator kinds (`lib.rs` lines 32-49). -/
inductive Operator where
  | Plus
  | Minus
  | Star
  | Slash
  | Equals
  | DoubleEquals
  | NotEquals
  | Bang
  | Mod
  | Greater
  | Less
  | GreaterEqual
  | LessEqual
  | And
  | Or
deriving DecidableEq, Repr

/-- The token-type variant `Type` of `lib.rs` lines 51-66 (named `Ty`
here because `Type` is reserved in Lean). `Ty.None` is the internal
"no token" sentinel. -/
inductive Ty where
  | String (s : String)
  | Number (n : Int)
  | Keyword (k : Keyword)
  | Operator (o : Operator)
  | Identifier (s : String)
  | LeftParen
  | RightParen
  | LeftBrace
  | RightBrace
  | Dot
  | Comma
  | Semicolon
  | None
deriving DecidableEq, Repr

/-- `Token` (`lib.rs` lines 68-71): a record wrapping one `Ty`. -/
structure Token where
  token_type : Ty
deriving DecidableEq, Repr

/-- `Token::new` (`lib.rs` lines 74-76). -/
def Token.new (token_type : Ty) : Token := { token_type := token_type }

/-- `Token::none` (`lib.rs` lines 78-82): the sentinel token of type
`Ty.None`. -/
def Token.none : Token := { token_type := Ty.None }

/-- The ASCII decimal digits `'0'`-`'9'` (code points 48-57): the range
pattern `'0'..='9'` of the dispatch loop, and exactly the domain of Rust
`char::to_digit(10)`. -/
def charIsAsciiDigit (c : Char) : Bool :=
  48 ≤ c.toNat && c.toNat ≤ 57

/-- Rust `char::is_numeric` (true on every Unicode numeric character:
categories Nd, Nl, No), a strictly larger set than the ASCII digits
accepted by `char::to_digit(10)`. The model is exact on ASCII — where
`is_numeric` holds exactly for the decimal digits — and additionally
contains the Arabic-Indic digit block U+0660-U+0669 (code points
1632-1641, category Nd) as the modelled representatives of the non-ASCII
numeric characters; the full Unicode tables are not reproduced, and every
theorem whose truth depends on a non-ASCII character instantiates it in
this block. -/
def charIsNumeric (c : Char) : Bool :=
  charIsAsciiDigit c || (1632 ≤ c.toNat && c.toNat ≤ 1641)

/-- Rust `char::is_alphanumeric`, which is `is_alphabetic || is_numeric`:
modelled as the ASCII letters together with `charIsNumeric`. It is exact
on ASCII and on the modelled numeric block; non-ASCII alphabetic
characters outside that block are not modelled. -/
def charIsAlphanumeric (c : Char) : Bool :=
  (65 ≤ c.toNat && c.toNat ≤ 90) || (97 ≤ c.toNat && c.toNat ≤ 122) ||
    charIsNumeric c

/-- Rust `char::to_digit(10)`: the digit value for the ASCII digits
`'0'`-`'9'` only, absent for every other character — in particular absent
for the non-ASCII characters accepted by `char::is_numeric`. -/
def to_digit10 (c : Char) : Option Int :=
  if charIsAsciiDigit c then some ((c.toNat : Int) - 48) else Option.none

/-- Two's-complement wrap-around of an integer to the `i32` range,
modelling the release-mode overflow behaviour of the Rust `i32`
accumulator in `lex_number`. -/
def wrap32 (n : Int) : Int :=
  (n + 2 ^ 31) % 2 ^ 32 - 2 ^ 31

/-- The accumulating loop of `lex_string` (`lib.rs` lines 88-103): the
cursor is already past the opening quote; characters are accumulated
until a closing quote (success), a newline (failure, newline consumed),
or end-of-input (failure). -/
def lex_string_go : List Char → String → (Except String Token) × List Char
  | [], _ => (Except.error ("Non-terminated String"), [])
  | c :: cs, accumulator =>
    if c = '"' then (Except.ok (Token.new (Ty.String accumulator)), cs)
    else if c = '\n' then (Except.error ("Non-terminated String"), cs)
    else lex_string_go cs (accumulator.push c)

/-- `lex_string` (`lib.rs` lines 85-111), starting from an empty
accumulator. -/
def lex_string (chars : List Char) : (Except String Token) × List Char :=
  lex_string_go chars ""

/-- The `while let Some(c) = chars.next_if(|&c| c.is_numeric())` loop of
`lex_number` (`lib.rs` lines 115-117), folding
`accumulator = accumulator * 10 + c.to_digit(10).unwrap()` at `i32`
width; a failing `unwrap` is an aborted pass (`Option.none`). -/
def lex_number_go : List Char → Int → Option (Int × List Char)
  | [], accumulator => some (accumulator, [])
  | c :: cs, accumulator =>
    if charIsNumeric c then
      match to_digit10 c with
      | some d => lex_number_go cs (wrap32 (accumulator * 10 + d))
      | Option.none => Option.none
    else some (accumulator, c :: cs)

/-- `lex_number` (`lib.rs` lines 113-119). -/
def lex_number (chars : List Char) : Option (Token × List Char) :=
  match lex_number_go chars 0 with
  | some (accumulator, rest) => some (Token.new (Ty.Number accumulator), rest)
  | Option.none => Option.none

/-- The `while let Some(c) = chars.next_if(|&c| c.is_alphanumeric())`
loop of `lex_alphanumeric` (`lib.rs` lines 123-125). -/
def lex_alphanumeric_go : List Char → String → String × List Char
  | [], accumulator => (accumulator, [])
  | c :: cs, accumulator =>
    if charIsAlphanumeric c then lex_alphanumeric_go cs (accumulator.push c)
    else (accumulator, c :: cs)

/-- `lex_alphanumeric` (`lib.rs` lines 121-138): accumulate a maximal
alphanumeric run, then classify it against `KEYWORDS`; on a table hit,
`Keyword::from_str` resolves the kind, with the `Keyword.None` arm
mapped to `Ty.None` exactly as in the source. -/
def lex_alphanumeric (chars : List Char) : Token × List Char :=
  let p := lex_alphanumeric_go chars ""
  (Token.new
    (if (KEYWORDS.map Prod.fst).contains p.1 then
      match Keyword.from_str p.1 with
      | Keyword.None => Ty.None
      | keyword => Ty.Keyword keyword
    else Ty.Identifier p.1), p.2)

/-- `lex_operator` (`lib.rs` lines 140-209): `chars.next().unwrap()` on
an empty cursor is an aborted pass (`Option.none`); otherwise one or two
characters are consumed following the source's match arms (rendered as a
first-match-wins chain), with `Token.none` for every unresolved case. -/
def lex_operator : List Char → Option (Token × List Char)
  | [] => Option.none
  | c :: cs =>
    if c = '+' then some (Token.new (Ty.Operator Operator.Plus), cs)
    else if c = '-' then some (Token.new (Ty.Operator Operator.Minus), cs)
    else if c = '*' then some (Token.new (Ty.Operator Operator.Star), cs)
    else if c = '/' then some (Token.new (Ty.Operator Operator.Slash), cs)
    else if c = '=' then
      match cs with
      | c2 :: cs2 =>
        if c2 = '=' then some (Token.new (Ty.Operator Operator.DoubleEquals), cs2)
        else some (Token.new (Ty.Operator Operator.Equals), c2 :: cs2)
      | [] => some (Token.none, [])
    else if c = '!' then
      match cs with
      | c2 :: cs2 =>
        if c2 = '=' then some (Token.new (Ty.Operator Operator.NotEquals), cs2)
        else some (Token.new (Ty.Operator Operator.Bang), c2 :: cs2)
      | [] => some (Token.none, [])
    else if c = '%' then some (Token.new (Ty.Operator Operator.Mod), cs)
    else if c = '>' then
      match cs with
      | c2 :: cs2 =>
        if c2 = '=' then some (Token.new (Ty.Operator Operator.GreaterEqual), cs2)
        else some (Token.new (Ty.Operator Operator.Greater), c2 :: cs2)
      | [] => some (Token.none, [])
    else if c = '<' then
      match cs with
      | c2 :: cs2 =>
        if c2 = '=' then some (Token.new (Ty.Operator Operator.LessEqual), cs2)
        else some (Token.new (Ty.Operator Operator.Less), c2 :: cs2)
      | [] => some (Token.none, [])
    else if c = '&' then
      match cs with
      | c2 :: cs2 =>
        if c2 = '&' then some (Token.new (Ty.Operator Operator.And), cs2)
        else some (Token.none, c2 :: cs2)
      | [] => some (Token.none, [])
    else if c = '|' then
      match cs with
      | c2 :: cs2 =>
        if c2 = '|' then some (Token.new (Ty.Operator Operator.Or), cs2)
        else some (Token.none, c2 :: cs2)
      | [] => some (Token.none, [])
    else some (Token.none, cs)

/-- The dispatch loop `lex_helper` (`lib.rs` lines 211-261): peek one
character, route to a sub-scanner (the `'0'..='9'` range pattern is the
ASCII decimal-digit test `charIsAsciiDigit`), push its token — unconditionally for
every sub-scanner except the string scanner, whose `Err` is discarded —
and repeat until the cursor is exhausted. -/
def lex_helper : List Char → Option (List Token)
  | [] => some []
  | c :: cs =>
    if c = '"' then
      match hs : lex_string cs with
      | (Except.ok t, rest) => Option.map (fun ts => t :: ts) (lex_helper rest)
      | (Except.error _, rest) => lex_helper rest
    else if hnum : charIsAsciiDigit c then
      match hn : lex_number (c :: cs) with
      | some (t, rest) => Option.map (fun ts => t :: ts) (lex_helper rest)
      | Option.none => Option.none
    else if c = '(' then Option.map (fun ts => Token.new Ty.LeftParen :: ts) (lex_helper cs)
    else if c = ')' then Option.map (fun ts => Token.new Ty.RightParen :: ts) (lex_helper cs)
    else if c = '{' then Option.map (fun ts => Token.new Ty.LeftBrace :: ts) (lex_helper cs)
    else if c = '}' then Option.map (fun ts => Token.new Ty.RightBrace :: ts) (lex_helper cs)
    else if c = '.' then Option.map (fun ts => Token.new Ty.Dot :: ts) (lex_helper cs)
    else if c = ',' then Option.map (fun ts => Token.new Ty.Comma :: ts) (lex_helper cs)
    else if c = '+' ∨ c = '-' ∨ c = '*' ∨ c = '/' ∨ c = '=' ∨ c = '!' ∨ c = '%' ∨
        c = '>' ∨ c = '<' ∨ c = '&' ∨ c = '|' then
      match ho : lex_operator (c :: cs) with
      | some (t, rest) => Option.map (fun ts => t :: ts) (lex_helper rest)
      | Option.none => Option.none
    else if c = ';' then Option.map (fun ts => Token.new Ty.Semicolon :: ts) (lex_helper cs)
    else if halpha : charIsAlphanumeric c then
      match ha : lex_alphanumeric (c :: cs) with
      | (t, rest) => Option.map (fun ts => t :: ts) (lex_helper rest)
    else lex_helper cs
termination_by l => l.length
decreasing_by
  · -- string scanner, success: the remainder is a suffix of the cursor after the quote
    have key : ∀ (l : List Char) (acc : String), (lex_string_go l acc).2.length ≤ l.length := by
      intro l
      induction l with
      | nil => intro acc; simp [lex_string_go]
      | cons d ds ih =>
        intro acc
        by_cases h1 : d = '"'
        · simp only [lex_string_go, if_pos h1, List.length_cons]
          exact Nat.le_succ _
        · by_cases h2 : d = '\n'
          · simp only [lex_string_go, if_neg h1, if_pos h2, List.length_cons]
            exact Nat.le_succ _
          · simp only [lex_string_go, if_neg h1, if_neg h2, List.length_cons]
            exact Nat.le_succ_of_le (ih _)
    have h2 : (lex_string cs).2 = rest := by rw [hs]
    simp only [List.length_cons]
    exact Nat.lt_succ_of_le (h2 ▸ key cs "")
  · -- string scanner, failure
    have key : ∀ (l : List Char) (acc : String), (lex_string_go l acc).2.length ≤ l.length := by
      intro l
      induction l with
      | nil => intro acc; simp [lex_string_go]
      | cons d ds ih =>
        intro acc
        by_cases h1 : d = '"'
        · simp only [lex_string_go, if_pos h1, List.length_cons]
          exact Nat.le_succ _
        · by_cases h2 : d = '\n'
          · simp only [lex_string_go, if_neg h1, if_pos h2, List.length_cons]
            exact Nat.le_succ _
          · simp only [lex_string_go, if_neg h1, if_neg h2, List.length_cons]
            exact Nat.le_succ_of_le (ih _)
    have h2 : (lex_string cs).2 = rest := by rw [hs]
    simp only [List.length_cons]
    exact Nat.lt_succ_of_le (h2 ▸ key cs "")
  · -- number scanner: the leading digit is always consumed
    have key : ∀ (l : List Char) (acc v : Int) (r : List Char),
        lex_number_go l acc = some (v, r) → r.length ≤ l.length := by
      intro l
      induction l with
      | nil =>
        intro acc v r h
        simp only [lex_number_go, Option.some.injEq, Prod.mk.injEq] at h
        simp [← h.2]
      | cons d ds ih =>
        intro acc v r h
        by_cases hd : charIsNumeric d
        · simp only [lex_number_go, if_pos hd] at h
          rcases htd : to_digit10 d with _ | d2
          · simp [htd] at h
          · simp only [htd] at h
            exact Nat.le_succ_of_le (ih _ v r h)
        · simp only [lex_number_go, if_neg hd, Option.some.injEq, Prod.mk.injEq] at h
          rw [← h.2]
    have hnum2 : charIsNumeric c = true := by
      simp [charIsNumeric, hnum]
    have hstep : lex_number_go (c :: cs) 0 =
        lex_number_go cs (wrap32 (0 * 10 + ((c.toNat : Int) - 48))) := by
      simp only [lex_number_go, if_pos hnum2, to_digit10, if_pos hnum]
    simp only [lex_number, hstep] at hn
    rcases hr : lex_number_go cs (wrap32 (0 * 10 + ((c.toNat : Int) - 48))) with _ | ⟨v, r⟩
    · rw [hr] at hn
      exact absurd hn (by simp)
    · rw [hr] at hn
      simp only [Option.some.injEq, Prod.mk.injEq] at hn
      have hlen := key cs _ v r hr
      simp only [List.length_cons]
      exact Nat.lt_succ_of_le (hn.2 ▸ hlen)
  · simp only [List.length_cons]; omega
  · simp only [List.length_cons]; omega
  · simp only [List.length_cons]; omega
  · simp only [List.length_cons]; omega
  · simp only [List.length_cons]; omega
  · simp only [List.length_cons]; omega
  · -- operator scanner: consumes at least the first character
    have hite : ∀ (n : Nat) (P : Prop) (inst : Decidable P) (a b : Option (Token × List Char)),
        (∀ t r, a = some (t, r) → r.length ≤ n) → (∀ t r, b = some (t, r) → r.length ≤ n) →
        ∀ t r, @ite _ P inst a b = some (t, r) → r.length ≤ n := by
      intro n P inst a b hA hB t r h
      by_cases hP : P
      · rw [if_pos hP] at h
        exact hA t r h
      · rw [if_neg hP] at h
        exact hB t r h
    have hleaf : ∀ (n : Nat) (tok : Token) (X : List Char), X.length ≤ n →
        ∀ t r, (some (tok, X) : Option (Token × List Char)) = some (t, r) → r.length ≤ n := by
      intro n tok X hX t r h
      injection h with h'
      injection h' with hA hB
      rw [← hB]
      exact hX
    have key : ∀ t r, lex_operator (c :: cs) = some (t, r) → r.length ≤ cs.length := by
      rcases cs with _ | ⟨c2, cs2⟩ <;>
        simp only [lex_operator] <;>
        repeat
          first
          | exact hleaf _ _ _ (by simp only [List.length_cons, List.length_nil]; omega)
          | apply hite
    simp only [List.length_cons]
    exact Nat.lt_succ_of_le (key t rest ho)
  · simp only [List.length_cons]; omega
  · -- word scanner: consumes at least the first character
    have key : ∀ (l : List Char) (acc : String),
        (lex_alphanumeric_go l acc).2.length ≤ l.length := by
      intro l
      induction l with
      | nil => intro acc; simp [lex_alphanumeric_go]
      | cons d ds ih =>
        intro acc
        by_cases hd : charIsAlphanumeric d
        · simp only [lex_alphanumeric_go, if_pos hd, List.length_cons]
          exact Nat.le_succ_of_le (ih _)
        · simp only [lex_alphanumeric_go, if_neg hd, List.length_cons]
          omega
    simp only [lex_alphanumeric] at ha
    simp only [Prod.mk.injEq] at ha
    have h2 : (lex_alphanumeric_go (c :: cs) "").2 = rest := ha.2
    have hstep : lex_alphanumeric_go (c :: cs) "" = lex_alphanumeric_go cs ("".push c) := by
      simp only [lex_alphanumeric_go, if_pos halpha]
    rw [hstep] at h2
    simp only [List.length_cons]
    exact Nat.lt_succ_of_le (h2 ▸ key cs _)
  · -- skipped character
    simp only [List.length_cons]
    omega

/-- The public entry point `lex` (`lib.rs` lines 263-265). -/
def lex (s : String) : Option (List Token) :=
  lex_helper s.data

/-- Spec-side definition: the integer value of a digit run computed
left-to-right by the fold `value = value*10 + digit` over mathematical
integers (spec section 4.3), to be compared with the `i32` accumulator
of `lex_number`. -/
def spec_digit_value (D : List Char) : Int :=
  D.foldl (fun v c => v * 10 + ((c.toNat : Int) - 48)) 0

/-! Helper lemmas about the individual scanners. -/

theorem string_mk_push (a : List Char) (c : Char) :
    (String.mk a).push c = String.mk (a ++ [c]) := rfl

theorem lex_string_go_closed (s : List Char) : ∀ (rest a : List Char),
    (∀ c ∈ s, c ≠ '"' ∧ c ≠ '\n') →
    lex_string_go (s ++ '"' :: rest) (String.mk a) =
      (Except.ok (Token.new (Ty.String (String.mk (a ++ s)))), rest) := by
  induction s with
  | nil =>
    intro rest a _
    simp [lex_string_go]
  | cons d ds ih =>
    intro rest a h
    have hd := h d (by simp)
    have hmem : ∀ c ∈ ds, c ≠ '"' ∧ c ≠ '\n' := fun c hc => h c (by simp [hc])
    simp only [List.cons_append, lex_string_go, if_neg hd.1, if_neg hd.2, List.append_eq]
    rw [string_mk_push, ih rest (a ++ [d]) hmem]
    simp

theorem lex_string_go_eoi (s : List Char) : ∀ (a : List Char),
    (∀ c ∈ s, c ≠ '"' ∧ c ≠ '\n') →
    lex_string_go s (String.mk a) = (Except.error ("Non-terminated String"), []) := by
  induction s with
  | nil =>
    intro a _
    simp [lex_string_go]
  | cons d ds ih =>
    intro a h
    have hd := h d (by simp)
    have hmem : ∀ c ∈ ds, c ≠ '"' ∧ c ≠ '\n' := fun c hc => h c (by simp [hc])
    simp only [lex_string_go, if_neg hd.1, if_neg hd.2]
    rw [string_mk_push, ih (a ++ [d]) hmem]

theorem lex_string_go_newline (s : List Char) : ∀ (rest a : List Char),
    (∀ c ∈ s, c ≠ '"' ∧ c ≠ '\n') →
    lex_string_go (s ++ '\n' :: rest) (String.mk a) =
      (Except.error ("Non-terminated String"), rest) := by
  induction s with
  | nil =>
    intro rest a _
    simp [lex_string_go]
  | cons d ds ih =>
    intro rest a h
    have hd := h d (by simp)
    have hmem : ∀ c ∈ ds, c ≠ '"' ∧ c ≠ '\n' := fun c hc => h c (by simp [hc])
    simp only [List.cons_append, lex_string_go, if_neg hd.1, if_neg hd.2, List.append_eq]
    rw [string_mk_push, ih rest (a ++ [d]) hmem]

theorem lex_string_go_rest_suffix (l : List Char) : ∀ (acc : String),
    (lex_string_go l acc).2 <:+ l := by
  induction l with
  | nil => intro acc; simp [lex_string_go]
  | cons d ds ih =>
    intro acc
    by_cases h1 : d = '"'
    · simp only [lex_string_go, if_pos h1]
      exact List.suffix_cons d ds
    · by_cases h2 : d = '\n'
      · simp only [lex_string_go, if_neg h1, if_pos h2]
        exact List.suffix_cons d ds
      · simp only [lex_string_go, if_neg h1, if_neg h2]
        exact (ih _).trans (List.suffix_cons d ds)

theorem lex_string_go_ok_shape (l : List Char) : ∀ (acc : String) (t : Token) (r : List Char),
    lex_string_go l acc = (Except.ok t, r) → ∃ s, t = Token.new (Ty.String s) := by
  induction l with
  | nil =>
    intro acc t r h
    simp [lex_string_go] at h
  | cons d ds ih =>
    intro acc t r h
    by_cases h1 : d = '"'
    · simp only [lex_string_go, if_pos h1, Prod.mk.injEq, Except.ok.injEq] at h
      exact ⟨acc, h.1.symm⟩
    · by_cases h2 : d = '\n'
      · simp only [lex_string_go, if_neg h1, if_pos h2, Prod.mk.injEq] at h
        exact absurd h.1 (by simp)
      · simp only [lex_string_go, if_neg h1, if_neg h2] at h
        exact ih _ t r h

theorem charIsAsciiDigit_bounds (c : Char) (h : charIsAsciiDigit c = true) :
    48 ≤ c.toNat ∧ c.toNat ≤ 57 := by
  simpa [charIsAsciiDigit, Bool.and_eq_true, decide_eq_true_eq] using h

theorem ascii_digit_numeric (c : Char) (h : charIsAsciiDigit c = true) :
    charIsNumeric c = true := by
  simp [charIsNumeric, h]

theorem numeric_ascii_digit (c : Char) (hA : c.toNat < 128)
    (h : charIsNumeric c = true) : charIsAsciiDigit c = true := by
  simp only [charIsNumeric, charIsAsciiDigit, Bool.or_eq_true, Bool.and_eq_true,
    decide_eq_true_eq] at h ⊢
  omega

theorem wrap32_eq_self (n : Int) (h0 : 0 ≤ n) (h1 : n < 2 ^ 31) : wrap32 n = n := by
  have hmod : (n + 2 ^ 31) % 2 ^ 32 = n + 2 ^ 31 :=
    Int.emod_eq_of_lt (by omega) (by norm_num; omega)
  simp only [wrap32, hmod]
  omega

theorem lex_number_go_isSome_of_safe (l : List Char) :
    (∀ c ∈ l, charIsNumeric c = true → charIsAsciiDigit c = true) →
    ∀ (acc : Int), (lex_number_go l acc).isSome := by
  induction l with
  | nil =>
    intro _ acc
    simp [lex_number_go]
  | cons d ds ih =>
    intro hsafe acc
    by_cases hd : charIsNumeric d
    · have hdd := hsafe d (by simp) hd
      simp only [lex_number_go, if_pos hd, to_digit10, if_pos hdd]
      exact ih (fun c hc hn => hsafe c (by simp [hc]) hn) _
    · simp [lex_number_go, if_neg hd]

theorem lex_number_go_rest_suffix (l : List Char) : ∀ (acc v : Int) (r : List Char),
    lex_number_go l acc = some (v, r) → r <:+ l := by
  induction l with
  | nil =>
    intro acc v r h
    simp only [lex_number_go, Option.some.injEq, Prod.mk.injEq] at h
    simp [← h.2]
  | cons d ds ih =>
    intro acc v r h
    by_cases hd : charIsNumeric d
    · simp only [lex_number_go, if_pos hd] at h
      rcases htd : to_digit10 d with _ | d2
      · simp [htd] at h
      · simp only [htd] at h
        exact (ih _ v r h).trans (List.suffix_cons d ds)
    · simp only [lex_number_go, if_neg hd, Option.some.injEq, Prod.mk.injEq] at h
      rw [← h.2]

theorem lex_number_go_digits_eoi (D : List Char) : ∀ (acc : Int),
    (∀ c ∈ D, charIsAsciiDigit c = true) →
    lex_number_go D acc =
      some (D.foldl (fun v c => wrap32 (v * 10 + ((c.toNat : Int) - 48))) acc, []) := by
  induction D with
  | nil => intro acc _; simp [lex_number_go]
  | cons d ds ih =>
    intro acc h
    have hd := h d (by simp)
    have hdn := ascii_digit_numeric d hd
    have hmem : ∀ c ∈ ds, charIsAsciiDigit c = true := fun c hc => h c (by simp [hc])
    simp only [lex_number_go, if_pos hdn, to_digit10, if_pos hd, List.foldl_cons]
    exact ih _ hmem

theorem lex_number_go_digits_stop (D : List Char) : ∀ (e : Char) (rest : List Char) (acc : Int),
    (∀ c ∈ D, charIsAsciiDigit c = true) → charIsNumeric e = false →
    lex_number_go (D ++ e :: rest) acc =
      some (D.foldl (fun v c => wrap32 (v * 10 + ((c.toNat : Int) - 48))) acc, e :: rest) := by
  induction D with
  | nil =>
    intro e rest acc _ he
    simp [lex_number_go, he]
  | cons d ds ih =>
    intro e rest acc h he
    have hd := h d (by simp)
    have hdn := ascii_digit_numeric d hd
    have hmem : ∀ c ∈ ds, charIsAsciiDigit c = true := fun c hc => h c (by simp [hc])
    simp only [List.cons_append, lex_number_go, if_pos hdn, to_digit10, if_pos hd,
      List.foldl_cons, List.append_eq]
    exact ih e rest _ hmem he

theorem lex_number_go_abort (D : List Char) : ∀ (x : Char) (rest : List Char) (acc : Int),
    (∀ c ∈ D, charIsAsciiDigit c = true) → charIsNumeric x = true →
    charIsAsciiDigit x = false →
    lex_number_go (D ++ x :: rest) acc = Option.none := by
  induction D with
  | nil =>
    intro x rest acc _ hx1 hx2
    simp [lex_number_go, if_pos hx1, to_digit10, hx2]
  | cons d ds ih =>
    intro x rest acc h hx1 hx2
    have hd := h d (by simp)
    have hdn := ascii_digit_numeric d hd
    have hmem : ∀ c ∈ ds, charIsAsciiDigit c = true := fun c hc => h c (by simp [hc])
    simp only [List.cons_append, lex_number_go, if_pos hdn, to_digit10, if_pos hd,
      List.append_eq]
    exact ih x rest _ hmem hx1 hx2

theorem digits_pure_foldl_le (D : List Char) : ∀ (acc : Int),
    (∀ c ∈ D, charIsAsciiDigit c = true) → 0 ≤ acc →
    acc ≤ D.foldl (fun v c => v * 10 + ((c.toNat : Int) - 48)) acc := by
  induction D with
  | nil => intro acc _ _; simp
  | cons d ds ih =>
    intro acc h h0
    have hd := charIsAsciiDigit_bounds d (h d (by simp))
    have hmem : ∀ c ∈ ds, charIsAsciiDigit c = true := fun c hc => h c (by simp [hc])
    have hstep : acc ≤ acc * 10 + ((d.toNat : Int) - 48) := by omega
    have hstep0 : 0 ≤ acc * 10 + ((d.toNat : Int) - 48) := by omega
    simp only [List.foldl_cons]
    exact hstep.trans (ih _ hmem hstep0)

theorem digits_wrap_foldl_eq_pure (D : List Char) : ∀ (acc : Int),
    (∀ c ∈ D, charIsAsciiDigit c = true) → 0 ≤ acc →
    D.foldl (fun v c => v * 10 + ((c.toNat : Int) - 48)) acc < 2 ^ 31 →
    D.foldl (fun v c => wrap32 (v * 10 + ((c.toNat : Int) - 48))) acc =
      D.foldl (fun v c => v * 10 + ((c.toNat : Int) - 48)) acc := by
  induction D with
  | nil => intro acc _ _ _; simp
  | cons d ds ih =>
    intro acc h h0 hlt
    have hd := charIsAsciiDigit_bounds d (h d (by simp))
    have hmem : ∀ c ∈ ds, charIsAsciiDigit c = true := fun c hc => h c (by simp [hc])
    have hstep0 : 0 ≤ acc * 10 + ((d.toNat : Int) - 48) := by omega
    simp only [List.foldl_cons] at hlt ⊢
    have hle := digits_pure_foldl_le ds (acc * 10 + ((d.toNat : Int) - 48)) hmem hstep0
    have hw : wrap32 (acc * 10 + ((d.toNat : Int) - 48)) = acc * 10 + ((d.toNat : Int) - 48) :=
      wrap32_eq_self _ hstep0 (by omega)
    rw [hw]
    exact ih _ hmem hstep0 hlt

theorem lex_alphanumeric_go_run (W : List Char) : ∀ (a : List Char),
    (∀ c ∈ W, charIsAlphanumeric c = true) →
    lex_alphanumeric_go W (String.mk a) = (String.mk (a ++ W), []) := by
  induction W with
  | nil => intro a _; simp [lex_alphanumeric_go]
  | cons d ds ih =>
    intro a h
    have hd := h d (by simp)
    have hmem : ∀ c ∈ ds, charIsAlphanumeric c = true := fun c hc => h c (by simp [hc])
    simp only [lex_alphanumeric_go, if_pos hd]
    rw [string_mk_push, ih (a ++ [d]) hmem]
    simp

theorem lex_alphanumeric_go_rest_suffix (l : List Char) : ∀ (acc : String),
    (lex_alphanumeric_go l acc).2 <:+ l := by
  induction l with
  | nil => intro acc; simp [lex_alphanumeric_go]
  | cons d ds ih =>
    intro acc
    by_cases hd : charIsAlphanumeric d
    · simp only [lex_alphanumeric_go, if_pos hd]
      exact (ih _).trans (List.suffix_cons d ds)
    · simp only [lex_alphanumeric_go, if_neg hd]
      exact List.suffix_refl _

theorem from_str_of_mem (s : String) (k : Keyword) (h : (s, k) ∈ KEYWORDS) :
    Keyword.from_str s = k := by
  simp only [KEYWORDS, List.mem_cons, List.not_mem_nil, or_false, Prod.mk.injEq] at h
  rcases h with ⟨rfl, rfl⟩ | ⟨rfl, rfl⟩ | ⟨rfl, rfl⟩ | ⟨rfl, rfl⟩ | ⟨rfl, rfl⟩ <;> decide

theorem from_str_ne_none_of_mem (s : String) (h : s ∈ KEYWORDS.map Prod.fst) :
    Keyword.from_str s ≠ Keyword.None := by
  simp only [KEYWORDS, List.map_cons, List.map_nil, List.mem_cons, List.not_mem_nil,
    or_false] at h
  rcases h with rfl | rfl | rfl | rfl | rfl <;> decide

theorem lex_alphanumeric_classify (chars : List Char) :
    (∃ k, k ≠ Keyword.None ∧ (lex_alphanumeric chars).1 = Token.new (Ty.Keyword k)) ∨
    (∃ w, (lex_alphanumeric chars).1 = Token.new (Ty.Identifier w)) := by
  simp only [lex_alphanumeric]
  by_cases hc : (KEYWORDS.map Prod.fst).contains (lex_alphanumeric_go chars "").1
  · left
    have hmem : (lex_alphanumeric_go chars "").1 ∈ KEYWORDS.map Prod.fst := by
      simpa using hc
    have hne := from_str_ne_none_of_mem _ hmem
    rw [if_pos hc]
    rcases hk : Keyword.from_str (lex_alphanumeric_go chars "").1 with _ | _ | _ | _ | _ | _
    · exact ⟨Keyword.Define, by simp, rfl⟩
    · exact ⟨Keyword.True, by simp, rfl⟩
    · exact ⟨Keyword.False, by simp, rfl⟩
    · exact absurd hk hne
    · exact ⟨Keyword.If, by simp, rfl⟩
    · exact ⟨Keyword.Null, by simp, rfl⟩
  · right
    rw [if_neg hc]
    exact ⟨_, rfl⟩

theorem lex_alphanumeric_ne_none (chars : List Char) :
    (lex_alphanumeric chars).1.token_type ≠ Ty.None := by
  rcases lex_alphanumeric_classify chars with ⟨k, hk, he⟩ | ⟨w, he⟩
  · rw [he]
    simp [Token.new]
  · rw [he]
    simp [Token.new]

theorem helper_ite_ne_none (P : Prop) (inst : Decidable P) (a b : Option (Token × List Char))
    (hA : a ≠ Option.none) (hB : b ≠ Option.none) : (@ite _ P inst a b) ≠ Option.none := by
  by_cases hP : P
  · rwa [if_pos hP]
  · rwa [if_neg hP]

theorem helper_ite_suffix (P : Prop) (inst : Decidable P) (a b : Option (Token × List Char))
    (l : List Char) (hA : ∀ t r, a = some (t, r) → r <:+ l)
    (hB : ∀ t r, b = some (t, r) → r <:+ l) :
    ∀ t r, (@ite _ P inst a b) = some (t, r) → r <:+ l := by
  intro t r h
  by_cases hP : P
  · rw [if_pos hP] at h
    exact hA t r h
  · rw [if_neg hP] at h
    exact hB t r h

theorem lex_operator_ne_none (c : Char) (cs : List Char) :
    lex_operator (c :: cs) ≠ Option.none := by
  rcases cs with _ | ⟨c2, cs2⟩ <;>
    simp only [lex_operator] <;>
    repeat
      first
      | exact Option.some_ne_none _
      | apply helper_ite_ne_none

theorem lex_operator_rest_suffix (c : Char) (cs : List Char) :
    ∀ t r, lex_operator (c :: cs) = some (t, r) → r <:+ cs := by
  rcases cs with _ | ⟨c2, cs2⟩ <;>
    simp only [lex_operator] <;>
    repeat'
      first
      | (intro t r h
         injection h with h'
         injection h' with h1 h2
         subst h2
         first
         | exact List.suffix_refl _
         | exact List.suffix_cons _ _)
      | apply helper_ite_suffix

theorem lex_number_some_shape (chars : List Char) (t : Token) (r : List Char)
    (h : lex_number chars = some (t, r)) :
    (∃ v, t = Token.new (Ty.Number v)) ∧ r <:+ chars := by
  simp only [lex_number] at h
  rcases hg : lex_number_go chars 0 with _ | ⟨v, r2⟩
  · rw [hg] at h
    exact absurd h (by simp)
  · rw [hg] at h
    simp only [Option.some.injEq, Prod.mk.injEq] at h
    exact ⟨⟨v, h.1.symm⟩, h.2 ▸ lex_number_go_rest_suffix chars 0 v r2 hg⟩

/-! Step equations for the dispatch loop. -/

theorem lex_helper_nil : lex_helper [] = some [] := by
  rw [lex_helper.eq_def]

theorem lex_helper_quote_ok (cs : List Char) (t : Token) (rest : List Char)
    (h : lex_string cs = (Except.ok t, rest)) :
    lex_helper ('"' :: cs) = Option.map (fun ts => t :: ts) (lex_helper rest) := by
  rw [lex_helper.eq_def]
  simp only [Char.reduceEq, if_true]
  split
  · rename_i t2 rest2 heq
    have hh := h.symm.trans heq
    injection hh with hA hB
    injection hA with hA2
    rw [hA2, hB]
  · rename_i a2 rest2 heq
    have hh := h.symm.trans heq
    injection hh with hA hB
    simp at hA

theorem lex_helper_quote_err (cs : List Char) (a : String) (rest : List Char)
    (h : lex_string cs = (Except.error a, rest)) :
    lex_helper ('"' :: cs) = lex_helper rest := by
  rw [lex_helper.eq_def]
  simp only [Char.reduceEq, if_true]
  split
  · rename_i t2 rest2 heq
    have hh := h.symm.trans heq
    injection hh with hA hB
    simp at hA
  · rename_i a2 rest2 heq
    have hh := h.symm.trans heq
    injection hh with hA hB
    rw [hB]

theorem lex_helper_digit (c : Char) (cs : List Char) (t : Token) (rest : List Char)
    (h1 : ¬c = '"') (h2 : charIsAsciiDigit c = true)
    (h : lex_number (c :: cs) = some (t, rest)) :
    lex_helper (c :: cs) = Option.map (fun ts => t :: ts) (lex_helper rest) := by
  rw [lex_helper.eq_def]
  simp only [if_neg h1, dif_pos h2]
  split
  · rename_i t2 rest2 heq
    have hh := h.symm.trans heq
    injection hh with hA
    injection hA with hB hC
    rw [hB, hC]
  · rename_i heq
    have hh := h.symm.trans heq
    simp at hh

theorem lex_helper_digit_none (c : Char) (cs : List Char)
    (h1 : ¬c = '"') (h2 : charIsAsciiDigit c = true)
    (h : lex_number (c :: cs) = Option.none) :
    lex_helper (c :: cs) = Option.none := by
  rw [lex_helper.eq_def]
  simp only [if_neg h1, dif_pos h2]
  split
  · rename_i t2 rest2 heq
    have hh := h.symm.trans heq
    simp at hh
  · rfl

theorem lex_helper_lparen (cs : List Char) :
    lex_helper ('(' :: cs) =
      Option.map (fun ts => Token.new Ty.LeftParen :: ts) (lex_helper cs) := by
  rw [lex_helper.eq_def]
  simp [charIsAsciiDigit, charIsNumeric, charIsAlphanumeric]

theorem lex_helper_rparen (cs : List Char) :
    lex_helper (')' :: cs) =
      Option.map (fun ts => Token.new Ty.RightParen :: ts) (lex_helper cs) := by
  rw [lex_helper.eq_def]
  simp [charIsAsciiDigit, charIsNumeric, charIsAlphanumeric]

theorem lex_helper_lbrace (cs : List Char) :
    lex_helper ('{' :: cs) =
      Option.map (fun ts => Token.new Ty.LeftBrace :: ts) (lex_helper cs) := by
  rw [lex_helper.eq_def]
  simp [charIsAsciiDigit, charIsNumeric, charIsAlphanumeric]

theorem lex_helper_rbrace (cs : List Char) :
    lex_helper ('}' :: cs) =
      Option.map (fun ts => Token.new Ty.RightBrace :: ts) (lex_helper cs) := by
  rw [lex_helper.eq_def]
  simp [charIsAsciiDigit, charIsNumeric, charIsAlphanumeric]

theorem lex_helper_dot (cs : List Char) :
    lex_helper ('.' :: cs) = Option.map (fun ts => Token.new Ty.Dot :: ts) (lex_helper cs) := by
  rw [lex_helper.eq_def]
  simp [charIsAsciiDigit, charIsNumeric, charIsAlphanumeric]

theorem lex_helper_comma (cs : List Char) :
    lex_helper (',' :: cs) = Option.map (fun ts => Token.new Ty.Comma :: ts) (lex_helper cs) := by
  rw [lex_helper.eq_def]
  simp [charIsAsciiDigit, charIsNumeric, charIsAlphanumeric]

theorem lex_helper_semicolon (cs : List Char) :
    lex_helper (';' :: cs) =
      Option.map (fun ts => Token.new Ty.Semicolon :: ts) (lex_helper cs) := by
  rw [lex_helper.eq_def]
  simp [charIsAsciiDigit, charIsNumeric, charIsAlphanumeric]

theorem lex_helper_op (c : Char) (cs : List Char) (t : Token) (rest : List Char)
    (hop : c = '+' ∨ c = '-' ∨ c = '*' ∨ c = '/' ∨ c = '=' ∨ c = '!' ∨ c = '%' ∨
      c = '>' ∨ c = '<' ∨ c = '&' ∨ c = '|')
    (h : lex_operator (c :: cs) = some (t, rest)) :
    lex_helper (c :: cs) = Option.map (fun ts => t :: ts) (lex_helper rest) := by
  rcases hop with rfl | rfl | rfl | rfl | rfl | rfl | rfl | rfl | rfl | rfl | rfl <;>
    (rw [lex_helper.eq_def]
     simp [charIsAsciiDigit, charIsNumeric, charIsAlphanumeric]
     split
     · rename_i t2 rest2 heq
       have hh := h.symm.trans heq
       injection hh with hA
       injection hA with hB hC
       rw [hB, hC]
     · rename_i heq
       have hh := h.symm.trans heq
       simp at hh)

theorem alnum_left_over (c : Char) (h3 : charIsAlphanumeric c = true) :
    ¬c = '"' ∧ ¬c = '(' ∧ ¬c = ')' ∧ ¬c = '{' ∧ ¬c = '}' ∧ ¬c = '.' ∧ ¬c = ',' ∧
    ¬c = ';' ∧
    ¬(c = '+' ∨ c = '-' ∨ c = '*' ∨ c = '/' ∨ c = '=' ∨ c = '!' ∨ c = '%' ∨
      c = '>' ∨ c = '<' ∨ c = '&' ∨ c = '|') := by
  refine ⟨?_, ?_, ?_, ?_, ?_, ?_, ?_, ?_, ?_⟩
  · intro hc; subst hc; exact absurd h3 (by decide)
  · intro hc; subst hc; exact absurd h3 (by decide)
  · intro hc; subst hc; exact absurd h3 (by decide)
  · intro hc; subst hc; exact absurd h3 (by decide)
  · intro hc; subst hc; exact absurd h3 (by decide)
  · intro hc; subst hc; exact absurd h3 (by decide)
  · intro hc; subst hc; exact absurd h3 (by decide)
  · intro hc; subst hc; exact absurd h3 (by decide)
  · rintro (rfl | rfl | rfl | rfl | rfl | rfl | rfl | rfl | rfl | rfl | rfl) <;>
      exact absurd h3 (by decide)

theorem lex_helper_alnum (c : Char) (cs : List Char) (t : Token) (rest : List Char)
    (h2 : charIsAsciiDigit c = false) (h3 : charIsAlphanumeric c = true)
    (ha : lex_alphanumeric (c :: cs) = (t, rest)) :
    lex_helper (c :: cs) = Option.map (fun ts => t :: ts) (lex_helper rest) := by
  obtain ⟨n1, n2, n3, n4, n5, n6, n7, n8, n9⟩ := alnum_left_over c h3
  rw [lex_helper.eq_def]
  simp only [if_neg n1, dif_neg (by simp [h2] : ¬charIsAsciiDigit c = true), if_neg n2,
    if_neg n3, if_neg n4, if_neg n5, if_neg n6, if_neg n7, if_neg n9, if_neg n8,
    dif_pos h3]
  rw [ha]

theorem lex_helper_skip (c : Char) (cs : List Char)
    (h1 : ¬c = '"') (h2 : ¬charIsAsciiDigit c = true) (h3 : ¬c = '(') (h4 : ¬c = ')')
    (h5 : ¬c = '{') (h6 : ¬c = '}') (h7 : ¬c = '.') (h8 : ¬c = ',')
    (h9 : ¬(c = '+' ∨ c = '-' ∨ c = '*' ∨ c = '/' ∨ c = '=' ∨ c = '!' ∨ c = '%' ∨
      c = '>' ∨ c = '<' ∨ c = '&' ∨ c = '|'))
    (h10 : ¬c = ';') (h11 : ¬charIsAlphanumeric c = true) :
    lex_helper (c :: cs) = lex_helper cs := by
  rw [lex_helper.eq_def]
  simp only [if_neg h1, dif_neg h2, if_neg h3, if_neg h4, if_neg h5, if_neg h6,
    if_neg h7, if_neg h8, if_neg h9, if_neg h10, dif_neg h11]

theorem ascii_safe (l : List Char) (hA : ∀ c ∈ l, c.toNat < 128) :
    ∀ c ∈ l, charIsNumeric c = true → charIsAsciiDigit c = true :=
  fun c hc hn => numeric_ascii_digit c (hA c hc) hn

theorem lex_number_isSome_of_safe (chars : List Char)
    (hsafe : ∀ c ∈ chars, charIsNumeric c = true → charIsAsciiDigit c = true) :
    (lex_number chars).isSome := by
  simp only [lex_number]
  rcases hg : lex_number_go chars 0 with _ | ⟨v, r⟩
  · have := lex_number_go_isSome_of_safe chars hsafe 0
    rw [hg] at this
    simp at this
  · simp

theorem lex_number_digit_rest (c : Char) (cs : List Char) (t : Token) (rest : List Char)
    (h2 : charIsAsciiDigit c = true) (h : lex_number (c :: cs) = some (t, rest)) :
    rest <:+ cs := by
  have h2n : charIsNumeric c = true := ascii_digit_numeric c h2
  simp only [lex_number, lex_number_go, to_digit10, if_pos h2n, if_pos h2] at h
  rcases hg : lex_number_go cs (wrap32 (0 * 10 + ((c.toNat : Int) - 48))) with _ | ⟨v, r⟩
  · rw [hg] at h
    simp at h
  · rw [hg] at h
    simp only [Option.some.injEq, Prod.mk.injEq] at h
    exact h.2 ▸ lex_number_go_rest_suffix cs _ v r hg

theorem lex_alphanumeric_alnum_rest (c : Char) (cs : List Char) (t : Token) (rest : List Char)
    (h3 : charIsAlphanumeric c = true) (ha : lex_alphanumeric (c :: cs) = (t, rest)) :
    rest <:+ cs := by
  have hsnd : (lex_alphanumeric_go (c :: cs) "").2 = rest := by
    have := congrArg Prod.snd ha
    simpa [lex_alphanumeric] using this
  rw [show lex_alphanumeric_go (c :: cs) "" = lex_alphanumeric_go cs ("".push c) from by
    simp only [lex_alphanumeric_go, if_pos h3]] at hsnd
  exact hsnd ▸ lex_alphanumeric_go_rest_suffix cs _

theorem lex_string_rest_eq (cs : List Char) (e : Except String Token) (rest : List Char)
    (h : lex_string cs = (e, rest)) : rest <:+ cs := by
  have := lex_string_go_rest_suffix cs ""
  rw [show (lex_string_go cs "") = lex_string cs from rfl, h] at this
  exact this

theorem lex_helper_isSome_of_ascii : ∀ (l : List Char), (∀ c ∈ l, c.toNat < 128) →
    (lex_helper l).isSome := by
  intro l
  induction l using lex_helper.induct with
  | case1 =>
    intro _
    simp [lex_helper_nil]
  | case2 cs t rest h ih =>
    intro hA
    have hsub := (lex_string_rest_eq cs _ rest h).subset
    rw [lex_helper_quote_ok cs t rest h]
    simpa using ih (fun x hx => hA x (List.mem_cons_of_mem _ (hsub hx)))
  | case3 cs a rest h ih =>
    intro hA
    have hsub := (lex_string_rest_eq cs _ rest h).subset
    rw [lex_helper_quote_err cs a rest h]
    exact ih (fun x hx => hA x (List.mem_cons_of_mem _ (hsub hx)))
  | case4 c cs h1 h2 t rest h ih =>
    intro hA
    have hsub := (lex_number_digit_rest c cs t rest h2 h).subset
    rw [lex_helper_digit c cs t rest h1 h2 h]
    simpa using ih (fun x hx => hA x (List.mem_cons_of_mem _ (hsub hx)))
  | case5 c cs h1 h2 h =>
    intro hA
    have := lex_number_isSome_of_safe (c :: cs) (ascii_safe _ hA)
    rw [h] at this
    simp at this
  | case6 cs h1 h2 ih =>
    intro hA
    rw [lex_helper_lparen cs]
    simpa using ih (fun x hx => hA x (List.mem_cons_of_mem _ hx))
  | case7 cs h1 h2 h3 ih =>
    intro hA
    rw [lex_helper_rparen cs]
    simpa using ih (fun x hx => hA x (List.mem_cons_of_mem _ hx))
  | case8 cs h1 h2 h3 h4 ih =>
    intro hA
    rw [lex_helper_lbrace cs]
    simpa using ih (fun x hx => hA x (List.mem_cons_of_mem _ hx))
  | case9 cs h1 h2 h3 h4 h5 ih =>
    intro hA
    rw [lex_helper_rbrace cs]
    simpa using ih (fun x hx => hA x (List.mem_cons_of_mem _ hx))
  | case10 cs h1 h2 h3 h4 h5 h6 ih =>
    intro hA
    rw [lex_helper_dot cs]
    simpa using ih (fun x hx => hA x (List.mem_cons_of_mem _ hx))
  | case11 cs h1 h2 h3 h4 h5 h6 h7 ih =>
    intro hA
    rw [lex_helper_comma cs]
    simpa using ih (fun x hx => hA x (List.mem_cons_of_mem _ hx))
  | case12 c cs h1 h2 h3 h4 h5 h6 h7 h8 hop t rest h ih =>
    intro hA
    have hsub := (lex_operator_rest_suffix c cs t rest h).subset
    rw [lex_helper_op c cs t rest hop h]
    simpa using ih (fun x hx => hA x (List.mem_cons_of_mem _ (hsub hx)))
  | case13 c cs h1 h2 h3 h4 h5 h6 h7 h8 hop h =>
    intro _
    exact absurd h (lex_operator_ne_none c cs)
  | case14 cs h1 h2 h3 h4 h5 h6 h7 h8 h9 ih =>
    intro hA
    rw [lex_helper_semicolon cs]
    simpa using ih (fun x hx => hA x (List.mem_cons_of_mem _ hx))
  | case15 c cs h1 h2 h3 h4 h5 h6 h7 h8 h9 h10 h11 t rest ha ih =>
    intro hA
    have hsub := (lex_alphanumeric_alnum_rest c cs t rest h11 ha).subset
    rw [lex_helper_alnum c cs t rest (by simpa using h2) h11 ha]
    simpa using ih (fun x hx => hA x (List.mem_cons_of_mem _ (hsub hx)))
  | case16 c cs h1 h2 h3 h4 h5 h6 h7 h8 h9 h10 h11 ih =>
    intro hA
    rw [lex_helper_skip c cs h1 h2 h3 h4 h5 h6 h7 h8 h9 h10 h11]
    exact ih (fun x hx => hA x (List.mem_cons_of_mem _ hx))

theorem lex_helper_length_le : ∀ (l : List Char) (ts : List Token),
    lex_helper l = some ts → ts.length ≤ l.length := by
  intro l
  induction l using lex_helper.induct with
  | case1 =>
    intro ts hts
    rw [lex_helper_nil] at hts
    injection hts with h2
    simp [← h2]
  | case2 cs t rest h ih =>
    intro ts hts
    rw [lex_helper_quote_ok cs t rest h] at hts
    obtain ⟨ts2, hrest, hcons⟩ := Option.map_eq_some'.mp hts
    have hlen : rest.length ≤ cs.length := (lex_string_rest_eq cs _ rest h).length_le
    have := ih ts2 hrest
    simp [← hcons, List.length_cons]
    omega
  | case3 cs a rest h ih =>
    intro ts hts
    rw [lex_helper_quote_err cs a rest h] at hts
    have hlen : rest.length ≤ cs.length := (lex_string_rest_eq cs _ rest h).length_le
    have := ih ts hts
    simp only [List.length_cons]
    omega
  | case4 c cs h1 h2 t rest h ih =>
    intro ts hts
    rw [lex_helper_digit c cs t rest h1 h2 h] at hts
    obtain ⟨ts2, hrest, hcons⟩ := Option.map_eq_some'.mp hts
    have hlen : rest.length ≤ cs.length := (lex_number_digit_rest c cs t rest h2 h).length_le
    have := ih ts2 hrest
    simp [← hcons, List.length_cons]
    omega
  | case5 c cs h1 h2 h =>
    intro ts hts
    rw [lex_helper_digit_none c cs h1 h2 h] at hts
    simp at hts
  | case6 cs h1 h2 ih =>
    intro ts hts
    rw [lex_helper_lparen cs] at hts
    obtain ⟨ts2, hrest, hcons⟩ := Option.map_eq_some'.mp hts
    have := ih ts2 hrest
    simp [← hcons, List.length_cons]
    omega
  | case7 cs h1 h2 h3 ih =>
    intro ts hts
    rw [lex_helper_rparen cs] at hts
    obtain ⟨ts2, hrest, hcons⟩ := Option.map_eq_some'.mp hts
    have := ih ts2 hrest
    simp [← hcons, List.length_cons]
    omega
  | case8 cs h1 h2 h3 h4 ih =>
    intro ts hts
    rw [lex_helper_lbrace cs] at hts
    obtain ⟨ts2, hrest, hcons⟩ := Option.map_eq_some'.mp hts
    have := ih ts2 hrest
    simp [← hcons, List.length_cons]
    omega
  | case9 cs h1 h2 h3 h4 h5 ih =>
    intro ts hts
    rw [lex_helper_rbrace cs] at hts
    obtain ⟨ts2, hrest, hcons⟩ := Option.map_eq_some'.mp hts
    have := ih ts2 hrest
    simp [← hcons, List.length_cons]
    omega
  | case10 cs h1 h2 h3 h4 h5 h6 ih =>
    intro ts hts
    rw [lex_helper_dot cs] at hts
    obtain ⟨ts2, hrest, hcons⟩ := Option.map_eq_some'.mp hts
    have := ih ts2 hrest
    simp [← hcons, List.length_cons]
    omega
  | case11 cs h1 h2 h3 h4 h5 h6 h7 ih =>
    intro ts hts
    rw [lex_helper_comma cs] at hts
    obtain ⟨ts2, hrest, hcons⟩ := Option.map_eq_some'.mp hts
    have := ih ts2 hrest
    simp [← hcons, List.length_cons]
    omega
  | case12 c cs h1 h2 h3 h4 h5 h6 h7 h8 hop t rest h ih =>
    intro ts hts
    rw [lex_helper_op c cs t rest hop h] at hts
    obtain ⟨ts2, hrest, hcons⟩ := Option.map_eq_some'.mp hts
    have hlen : rest.length ≤ cs.length :=
      (lex_operator_rest_suffix c cs t rest h).length_le
    have := ih ts2 hrest
    simp [← hcons, List.length_cons]
    omega
  | case13 c cs h1 h2 h3 h4 h5 h6 h7 h8 hop h =>
    intro ts hts
    exact absurd h (lex_operator_ne_none c cs)
  | case14 cs h1 h2 h3 h4 h5 h6 h7 h8 h9 ih =>
    intro ts hts
    rw [lex_helper_semicolon cs] at hts
    obtain ⟨ts2, hrest, hcons⟩ := Option.map_eq_some'.mp hts
    have := ih ts2 hrest
    simp [← hcons, List.length_cons]
    omega
  | case15 c cs h1 h2 h3 h4 h5 h6 h7 h8 h9 h10 h11 t rest ha ih =>
    intro ts hts
    rw [lex_helper_alnum c cs t rest (by simpa using h2) h11 ha] at hts
    obtain ⟨ts2, hrest, hcons⟩ := Option.map_eq_some'.mp hts
    have hlen : rest.length ≤ cs.length :=
      (lex_alphanumeric_alnum_rest c cs t rest h11 ha).length_le
    have := ih ts2 hrest
    simp [← hcons, List.length_cons]
    omega
  | case16 c cs h1 h2 h3 h4 h5 h6 h7 h8 h9 h10 h11 ih =>
    intro ts hts
    rw [lex_helper_skip c cs h1 h2 h3 h4 h5 h6 h7 h8 h9 h10 h11] at hts
    have := ih ts hts
    simp only [List.length_cons]
    omega

theorem lex_helper_none_provenance : ∀ (l : List Char) (ts : List Token),
    lex_helper l = some ts → ∀ tk ∈ ts, tk.token_type = Ty.None →
    ∃ (c : Char) (cs rest : List Char),
      (c :: cs) <:+ l ∧ lex_operator (c :: cs) = some (tk, rest) := by
  intro l
  induction l using lex_helper.induct with
  | case1 =>
    intro ts hts tk hmem hty
    rw [lex_helper_nil] at hts
    injection hts with h2
    rw [← h2] at hmem
    simp at hmem
  | case2 cs t rest h ih =>
    intro ts hts tk hmem hty
    rw [lex_helper_quote_ok cs t rest h] at hts
    obtain ⟨ts2, hrest, hcons⟩ := Option.map_eq_some'.mp hts
    rw [← hcons] at hmem
    rcases List.mem_cons.mp hmem with rfl | hmem2
    · obtain ⟨s0, hs0⟩ := lex_string_go_ok_shape cs "" tk rest h
      rw [hs0] at hty
      simp [Token.new] at hty
    · obtain ⟨c2, cs2, rest2, hsuf, hopeq⟩ := ih ts2 hrest tk hmem2 hty
      exact ⟨c2, cs2, rest2,
        hsuf.trans ((lex_string_rest_eq cs _ rest h).trans (List.suffix_cons '"' cs)), hopeq⟩
  | case3 cs a rest h ih =>
    intro ts hts tk hmem hty
    rw [lex_helper_quote_err cs a rest h] at hts
    obtain ⟨c2, cs2, rest2, hsuf, hopeq⟩ := ih ts hts tk hmem hty
    exact ⟨c2, cs2, rest2,
      hsuf.trans ((lex_string_rest_eq cs _ rest h).trans (List.suffix_cons '"' cs)), hopeq⟩
  | case4 c cs h1 h2 t rest h ih =>
    intro ts hts tk hmem hty
    rw [lex_helper_digit c cs t rest h1 h2 h] at hts
    obtain ⟨ts2, hrest, hcons⟩ := Option.map_eq_some'.mp hts
    rw [← hcons] at hmem
    rcases List.mem_cons.mp hmem with rfl | hmem2
    · obtain ⟨⟨v, hv⟩, hsuf⟩ := lex_number_some_shape (c :: cs) tk rest h
      rw [hv] at hty
      simp [Token.new] at hty
    · obtain ⟨c2, cs2, rest2, hsuf, hopeq⟩ := ih ts2 hrest tk hmem2 hty
      exact ⟨c2, cs2, rest2,
        hsuf.trans ((lex_number_digit_rest c cs t rest h2 h).trans (List.suffix_cons c cs)),
        hopeq⟩
  | case5 c cs h1 h2 h =>
    intro ts hts tk hmem hty
    rw [lex_helper_digit_none c cs h1 h2 h] at hts
    simp at hts
  | case6 cs h1 h2 ih =>
    intro ts hts tk hmem hty
    rw [lex_helper_lparen cs] at hts
    obtain ⟨ts2, hrest, hcons⟩ := Option.map_eq_some'.mp hts
    rw [← hcons] at hmem
    rcases List.mem_cons.mp hmem with rfl | hmem2
    · simp [Token.new] at hty
    · obtain ⟨c2, cs2, rest2, hsuf, hopeq⟩ := ih ts2 hrest tk hmem2 hty
      exact ⟨c2, cs2, rest2, hsuf.trans (List.suffix_cons '(' cs), hopeq⟩
  | case7 cs h1 h2 h3 ih =>
    intro ts hts tk hmem hty
    rw [lex_helper_rparen cs] at hts
    obtain ⟨ts2, hrest, hcons⟩ := Option.map_eq_some'.mp hts
    rw [← hcons] at hmem
    rcases List.mem_cons.mp hmem with rfl | hmem2
    · simp [Token.new] at hty
    · obtain ⟨c2, cs2, rest2, hsuf, hopeq⟩ := ih ts2 hrest tk hmem2 hty
      exact ⟨c2, cs2, rest2, hsuf.trans (List.suffix_cons ')' cs), hopeq⟩
  | case8 cs h1 h2 h3 h4 ih =>
    intro ts hts tk hmem hty
    rw [lex_helper_lbrace cs] at hts
    obtain ⟨ts2, hrest, hcons⟩ := Option.map_eq_some'.mp hts
    rw [← hcons] at hmem
    rcases List.mem_cons.mp hmem with rfl | hmem2
    · simp [Token.new] at hty
    · obtain ⟨c2, cs2, rest2, hsuf, hopeq⟩ := ih ts2 hrest tk hmem2 hty
      exact ⟨c2, cs2, rest2, hsuf.trans (List.suffix_cons '{' cs), hopeq⟩
  | case9 cs h1 h2 h3 h4 h5 ih =>
    intro ts hts tk hmem hty
    rw [lex_helper_rbrace cs] at hts
    obtain ⟨ts2, hrest, hcons⟩ := Option.map_eq_some'.mp hts
    rw [← hcons] at hmem
    rcases List.mem_cons.mp hmem with rfl | hmem2
    · simp [Token.new] at hty
    · obtain ⟨c2, cs2, rest2, hsuf, hopeq⟩ := ih ts2 hrest tk hmem2 hty
      exact ⟨c2, cs2, rest2, hsuf.trans (List.suffix_cons '}' cs), hopeq⟩
  | case10 cs h1 h2 h3 h4 h5 h6 ih =>
    intro ts hts tk hmem hty
    rw [lex_helper_dot cs] at hts
    obtain ⟨ts2, hrest, hcons⟩ := Option.map_eq_some'.mp hts
    rw [← hcons] at hmem
    rcases List.mem_cons.mp hmem with rfl | hmem2
    · simp [Token.new] at hty
    · obtain ⟨c2, cs2, rest2, hsuf, hopeq⟩ := ih ts2 hrest tk hmem2 hty
      exact ⟨c2, cs2, rest2, hsuf.trans (List.suffix_cons '.' cs), hopeq⟩
  | case11 cs h1 h2 h3 h4 h5 h6 h7 ih =>
    intro ts hts tk hmem hty
    rw [lex_helper_comma cs] at hts
    obtain ⟨ts2, hrest, hcons⟩ := Option.map_eq_some'.mp hts
    rw [← hcons] at hmem
    rcases List.mem_cons.mp hmem with rfl | hmem2
    · simp [Token.new] at hty
    · obtain ⟨c2, cs2, rest2, hsuf, hopeq⟩ := ih ts2 hrest tk hmem2 hty
      exact ⟨c2, cs2, rest2, hsuf.trans (List.suffix_cons ',' cs), hopeq⟩
  | case12 c cs h1 h2 h3 h4 h5 h6 h7 h8 hop t rest h ih =>
    intro ts hts tk hmem hty
    rw [lex_helper_op c cs t rest hop h] at hts
    obtain ⟨ts2, hrest, hcons⟩ := Option.map_eq_some'.mp hts
    rw [← hcons] at hmem
    rcases List.mem_cons.mp hmem with rfl | hmem2
    · exact ⟨c, cs, rest, List.suffix_refl _, h⟩
    · obtain ⟨c2, cs2, rest2, hsuf, hopeq⟩ := ih ts2 hrest tk hmem2 hty
      exact ⟨c2, cs2, rest2,
        hsuf.trans ((lex_operator_rest_suffix c cs t rest h).trans (List.suffix_cons c cs)),
        hopeq⟩
  | case13 c cs h1 h2 h3 h4 h5 h6 h7 h8 hop h =>
    intro ts hts tk hmem hty
    exact absurd h (lex_operator_ne_none c cs)
  | case14 cs h1 h2 h3 h4 h5 h6 h7 h8 h9 ih =>
    intro ts hts tk hmem hty
    rw [lex_helper_semicolon cs] at hts
    obtain ⟨ts2, hrest, hcons⟩ := Option.map_eq_some'.mp hts
    rw [← hcons] at hmem
    rcases List.mem_cons.mp hmem with rfl | hmem2
    · simp [Token.new] at hty
    · obtain ⟨c2, cs2, rest2, hsuf, hopeq⟩ := ih ts2 hrest tk hmem2 hty
      exact ⟨c2, cs2, rest2, hsuf.trans (List.suffix_cons ';' cs), hopeq⟩
  | case15 c cs h1 h2 h3 h4 h5 h6 h7 h8 h9 h10 h11 t rest ha ih =>
    intro ts hts tk hmem hty
    rw [lex_helper_alnum c cs t rest (by simpa using h2) h11 ha] at hts
    obtain ⟨ts2, hrest, hcons⟩ := Option.map_eq_some'.mp hts
    rw [← hcons] at hmem
    rcases List.mem_cons.mp hmem with rfl | hmem2
    · have hne := lex_alphanumeric_ne_none (c :: cs)
      have h1t : (lex_alphanumeric (c :: cs)).1 = tk := by
        rw [ha]
      rw [h1t] at hne
      exact absurd hty hne
    · obtain ⟨c2, cs2, rest2, hsuf, hopeq⟩ := ih ts2 hrest tk hmem2 hty
      exact ⟨c2, cs2, rest2,
        hsuf.trans ((lex_alphanumeric_alnum_rest c cs t rest h11 ha).trans
          (List.suffix_cons c cs)), hopeq⟩
  | case16 c cs h1 h2 h3 h4 h5 h6 h7 h8 h9 h10 h11 ih =>
    intro ts hts tk hmem hty
    rw [lex_helper_skip c cs h1 h2 h3 h4 h5 h6 h7 h8 h9 h10 h11] at hts
    obtain ⟨c2, cs2, rest2, hsuf, hopeq⟩ := ih ts hts tk hmem hty
    exact ⟨c2, cs2, rest2, hsuf.trans (List.suffix_cons c cs), hopeq⟩

/-! Claim theorems. -/

/-- C1, counterexample: lexing the single character `&` produces an output
sequence that contains the sentinel token of type `Ty.None`, so the claim
that no `None`-typed token ever reaches the caller is false: the dispatch
loop pushes the operator scanner's result without filtering. -/
theorem C1_counterexample :
    lex (String.mk ['&']) = some [Token.none] ∧ Token.none.token_type = Ty.None := by
  constructor
  · simp [lex, lex_helper, lex_operator, charIsAsciiDigit, charIsNumeric, charIsAlphanumeric, Token.none]
  · rfl

/-- C1, amended: `None`-typed tokens can appear in the output of `lex`, but
only as unfiltered results of the operator scanner: every `None`-typed token
of the output was returned by `lex_operator` on some suffix of the input.
The string, number, word and structural branches never contribute one. -/
theorem C1_amended_none_only_from_operator (s : String) (ts : List Token)
    (hts : lex s = some ts) : ∀ tk ∈ ts, tk.token_type = Ty.None →
    ∃ (c : Char) (cs rest : List Char),
      (c :: cs) <:+ s.data ∧ lex_operator (c :: cs) = some (tk, rest) := by
  intro tk hmem hty
  exact lex_helper_none_provenance s.data ts (by simpa [lex] using hts) tk hmem hty

/-- C1, witness: the amended theorem applied to the input `&`. -/
theorem C1_witness :
    ∃ (c : Char) (cs rest : List Char),
      (c :: cs) <:+ (String.mk ['&']).data ∧
        lex_operator (c :: cs) = some (Token.none, rest) :=
  C1_amended_none_only_from_operator (String.mk ['&']) [Token.none]
    (by simp [lex, lex_helper, lex_operator, charIsAsciiDigit, charIsNumeric, charIsAlphanumeric, Token.none])
    Token.none (by simp) rfl

/-- C2, counterexample: lexing `&` alone yields one sentinel token of type
`Ty.None`, not the empty output sequence the claim promises. -/
theorem C2_counterexample :
    lex (String.mk ['&']) = some [Token.none] ∧
    some [Token.none] ≠ some ([] : List Token) := by
  constructor
  · simp [lex, lex_helper, lex_operator, charIsAsciiDigit, charIsNumeric, charIsAlphanumeric, Token.none]
  · decide

/-- C2, amended: lexing `&&` yields exactly one `And` operator token, and
lexing `&` alone yields exactly one token, the internal `None` sentinel
(the dispatch loop forwards it instead of discarding it). -/
theorem C2_amended_maximal_munch :
    lex (String.mk ['&', '&']) = some [Token.new (Ty.Operator Operator.And)] ∧
    lex (String.mk ['&']) = some [Token.none] := by
  constructor
  · simp [lex, lex_helper, lex_operator, charIsAsciiDigit, charIsNumeric, charIsAlphanumeric, Token.new]
  · simp [lex, lex_helper, lex_operator, charIsAsciiDigit, charIsNumeric, charIsAlphanumeric, Token.none]

/-- C3, counterexample: lexing `=` as the entire input yields the sentinel
token of type `Ty.None` (the source returns `Token::none()` when `=` is
peeked at end-of-input), not `Operator(Equals)` as the claim states. -/
theorem C3_counterexample :
    lex (String.mk ['=']) = some [Token.none] ∧
    some [Token.none] ≠ some [Token.new (Ty.Operator Operator.Equals)] := by
  constructor
  · simp [lex, lex_helper, lex_operator, charIsAsciiDigit, charIsNumeric, charIsAlphanumeric, Token.none]
  · decide

/-- C3, amended: lexing `==` yields exactly `Operator(DoubleEquals)`;
lexing `=` alone yields the single `None` sentinel token; and lexing `=`
followed by any non-`=` character emits `Operator(Equals)` and resumes
lexing exactly at that character (which may itself produce no token,
e.g. whitespace). -/
theorem C3_amended_equals_disambiguation :
    lex (String.mk ['=', '=']) = some [Token.new (Ty.Operator Operator.DoubleEquals)] ∧
    lex (String.mk ['=']) = some [Token.none] ∧
    ∀ (c : Char) (cs : List Char), c ≠ '=' →
      lex_helper ('=' :: c :: cs) =
        Option.map (fun ts => Token.new (Ty.Operator Operator.Equals) :: ts)
          (lex_helper (c :: cs)) := by
  refine ⟨?_, ?_, ?_⟩
  · simp [lex, lex_helper, lex_operator, charIsAsciiDigit, charIsNumeric, charIsAlphanumeric, Token.new]
  · simp [lex, lex_helper, lex_operator, charIsAsciiDigit, charIsNumeric, charIsAlphanumeric, Token.none]
  · intro c cs hc
    refine lex_helper_op '=' (c :: cs) (Token.new (Ty.Operator Operator.Equals)) (c :: cs)
      (Or.inr (Or.inr (Or.inr (Or.inr (Or.inl rfl))))) ?_
    simp [lex_operator, hc]

/-- C3, witness: the amended disambiguation applied at the character `x`. -/
theorem C3_witness :
    lex_helper ['=', 'x'] =
      Option.map (fun ts => Token.new (Ty.Operator Operator.Equals) :: ts)
        (lex_helper ['x']) :=
  C3_amended_equals_disambiguation.2.2 'x' [] (by decide)

/-- C4, counterexample: `lex` does not complete on every input. On `3٣`
(an ASCII digit followed by the Arabic-Indic digit U+0663) the number
scanner's `next_if(|&c| c.is_numeric())` consumes `٣`, which lies outside
the domain of `char::to_digit(10)`, and the pass aborts on the `unwrap` —
no token sequence is returned. -/
theorem C4_counterexample :
    lex (String.mk ['3', '٣']) = Option.none ∧
    (lex (String.mk ['3', '٣'])).isSome = false := by
  have h : lex (String.mk ['3', '٣']) = Option.none := by
    simp [lex, lex_helper, lex_number, lex_number_go, to_digit10, charIsAsciiDigit,
      charIsNumeric, charIsAlphanumeric, wrap32]
  exact ⟨h, by rw [h]; rfl⟩

/-- C4, amended: on every input all of whose characters are ASCII — where
`is_numeric` accepts exactly the domain of `to_digit(10)` — `lex`
completes the pass and returns a token sequence: no modelled `unwrap`
aborts, and the malformed-input conditions (unterminated string,
unresolved operator, unrecognized character) are recovered from locally. -/
theorem C4_amended_no_abort_on_ascii (s : String)
    (hA : ∀ c ∈ s.data, c.toNat < 128) : (lex s).isSome = true := by
  simpa [lex] using lex_helper_isSome_of_ascii s.data hA

/-- C4, witness: the amended theorem applied to the input `1 + 1`. -/
theorem C4_witness : (lex (String.mk ['1', ' ', '+', ' ', '1'])).isSome = true :=
  C4_amended_no_abort_on_ascii (String.mk ['1', ' ', '+', ' ', '1']) (by decide)

/-- C9, counterexample: the dispatch loop does not always run until the
cursor is exhausted: on `42٣` the number scanner aborts on
`to_digit(10).unwrap()` after consuming `٣`, so no output sequence
exists for the pass. -/
theorem C9_counterexample :
    lex (String.mk ['4', '2', '٣']) = Option.none ∧
    (lex (String.mk ['4', '2', '٣'])).isSome = false := by
  have h : lex (String.mk ['4', '2', '٣']) = Option.none := by
    simp [lex, lex_helper, lex_number, lex_number_go, to_digit10, charIsAsciiDigit,
      charIsNumeric, charIsAlphanumeric, wrap32]
  exact ⟨h, by rw [h]; rfl⟩

/-- C9, amended: whenever `lex` returns an output sequence at all, it
contains at most one token per input character; and on every input all of
whose characters are ASCII the pass does complete — the loop ends with
the cursor exhausted — with that same length bound. -/
theorem C9_amended_terminates_output_bounded (s : String) :
    (∀ ts, lex s = some ts → ts.length ≤ s.data.length) ∧
    ((∀ c ∈ s.data, c.toNat < 128) →
      ∃ ts, lex s = some ts ∧ ts.length ≤ s.data.length) := by
  constructor
  · intro ts hts
    exact lex_helper_length_le s.data ts (by simpa [lex] using hts)
  · intro hA
    obtain ⟨ts, hts⟩ := Option.isSome_iff_exists.mp (lex_helper_isSome_of_ascii s.data hA)
    exact ⟨ts, by simpa [lex] using hts, lex_helper_length_le s.data ts hts⟩

/-- C9, witness: the amended theorem applied to the input `311`. -/
theorem C9_witness :
    ∃ ts, lex (String.mk ['3', '1', '1']) = some ts ∧
      ts.length ≤ (String.mk ['3', '1', '1']).data.length :=
  (C9_amended_terminates_output_bounded (String.mk ['3', '1', '1'])).2 (by decide)

/-- C5, counterexample: `9a` is an alphanumeric run that is not a keyword,
yet lexing it yields `NumberLiteral(9)` followed by `Identifier("a")` —
the dispatch loop routes a digit-initial run to the number scanner first,
so the run is not lexed as a single identifier. -/
theorem C5_counterexample :
    (['9', 'a'].all charIsAlphanumeric = true) ∧
    (String.mk ['9', 'a'] ∉ KEYWORDS.map Prod.fst) ∧
    lex (String.mk ['9', 'a']) =
      some [Token.new (Ty.Number 9), Token.new (Ty.Identifier (String.mk ['a']))] ∧
    some [Token.new (Ty.Number 9), Token.new (Ty.Identifier (String.mk ['a']))] ≠
      some [Token.new (Ty.Identifier (String.mk ['9', 'a']))] := by
  refine ⟨by decide, by decide, ?_, by decide⟩
  simp [lex, lex_helper, lex_operator, lex_number, lex_number_go, lex_alphanumeric,
    lex_alphanumeric_go, charIsAsciiDigit, charIsNumeric, charIsAlphanumeric, to_digit10, wrap32,
    Keyword.from_str, Keyword.from_str_go, KEYWORDS, Token.new]
  decide

/-- C5, amended: for every alphanumeric run whose first character is not a
decimal digit, lexing the run as the entire input yields exactly one token:
`Identifier(W)` when `W` is not in the keyword table, and the matching
`Keyword` token when `W` equals a keyword exactly (case-sensitively). -/
theorem C5_amended_word_classification (c : Char) (cs : List Char)
    (hnd : charIsNumeric c = false) (hal : charIsAlphanumeric c = true)
    (hall : ∀ x ∈ cs, charIsAlphanumeric x = true) :
    (String.mk (c :: cs) ∉ KEYWORDS.map Prod.fst →
      lex_helper (c :: cs) = some [Token.new (Ty.Identifier (String.mk (c :: cs)))]) ∧
    (∀ k, (String.mk (c :: cs), k) ∈ KEYWORDS →
      lex_helper (c :: cs) = some [Token.new (Ty.Keyword k)]) := by
  have hmemall : ∀ x ∈ (c :: cs), charIsAlphanumeric x = true := by
    intro x hx
    rcases List.mem_cons.mp hx with rfl | hx2
    · exact hal
    · exact hall x hx2
  have hrun : lex_alphanumeric_go (c :: cs) "" = (String.mk (c :: cs), []) := by
    have := lex_alphanumeric_go_run (c :: cs) [] hmemall
    simpa using this
  have hnd2 : charIsAsciiDigit c = false := by
    rcases hx : charIsAsciiDigit c
    · rfl
    · exact absurd (ascii_digit_numeric c hx) (by simp [hnd])
  constructor
  · intro hnk
    have hcont : (KEYWORDS.map Prod.fst).contains (String.mk (c :: cs)) = false := by
      simpa using hnk
    have ha : lex_alphanumeric (c :: cs) =
        (Token.new (Ty.Identifier (String.mk (c :: cs))), []) := by
      simp only [lex_alphanumeric]
      rw [hrun]
      rw [if_neg (by rw [hcont]; decide)]
    rw [lex_helper_alnum c cs _ [] hnd2 hal ha, lex_helper_nil]
    rfl
  · intro k hk
    have hmem : String.mk (c :: cs) ∈ KEYWORDS.map Prod.fst :=
      List.mem_map_of_mem Prod.fst hk
    have hcont : (KEYWORDS.map Prod.fst).contains (String.mk (c :: cs)) = true := by
      simpa using hmem
    have hfk : Keyword.from_str (String.mk (c :: cs)) = k := from_str_of_mem _ k hk
    have hkne : k ≠ Keyword.None := by
      rw [← hfk]
      exact from_str_ne_none_of_mem _ hmem
    have ha : lex_alphanumeric (c :: cs) = (Token.new (Ty.Keyword k), []) := by
      simp only [lex_alphanumeric]
      rw [hrun]
      simp only [if_pos hcont, hfk]
    rw [lex_helper_alnum c cs _ [] hnd2 hal ha, lex_helper_nil]
    rfl

/-- C5, witness: the amended classification applied to the keyword `if` —
lexing `if` yields exactly one `Keyword(If)` token. -/
theorem C5_witness :
    lex_helper ['i', 'f'] = some [Token.new (Ty.Keyword Keyword.If)] :=
  (C5_amended_word_classification 'i' ['f'] (by decide) (by decide) (by decide)).2
    Keyword.If (by decide)

/-- C6, counterexample: the number scanner does not always stop at the
first non-decimal-digit character. After the ASCII digit `3`, the
character `٣` (U+0663, a Unicode numeric accepted by `char::is_numeric`
but rejected by `char::to_digit(10)`) is consumed by the scanner's
`next_if` loop, and the pass aborts on the `unwrap` instead of stopping
before `٣` with `NumberLiteral(3)`. -/
theorem C6_counterexample :
    lex_number ['3', '٣'] = Option.none ∧
    Option.none ≠ some (Token.new (Ty.Number 3), ['٣']) := by
  constructor
  · decide
  · decide

/-- C6, amended: for every run `D` of ASCII decimal digits, lexing `D` as
the entire input yields exactly one token `NumberLiteral(v)`, where `v`
is the integer value of `D` computed left-to-right by the fold
`value = value*10 + digit` (the hypothesis keeps the fold inside the
`i32` range, where the accumulator's wrap-around arithmetic agrees with
the mathematical fold). The scanner stops, without consuming it, at the
first following character that is not Unicode-numeric (stated for ASCII
followers, where the model is exact); a following character that is
Unicode-numeric but not an ASCII digit is instead consumed and aborts
the pass on `to_digit(10).unwrap()`. -/
theorem C6_amended_number_scanner (c : Char) (cs : List Char) (e : Char) (rest : List Char)
    (hc : charIsAsciiDigit c = true) (hcs : ∀ x ∈ cs, charIsAsciiDigit x = true)
    (hb : spec_digit_value (c :: cs) < 2 ^ 31)
    (heA : e.toNat < 128) (he : charIsAsciiDigit e = false) :
    lex_helper (c :: cs) = some [Token.new (Ty.Number (spec_digit_value (c :: cs)))] ∧
    lex_number ((c :: cs) ++ e :: rest) =
      some (Token.new (Ty.Number (spec_digit_value (c :: cs))), e :: rest) ∧
    ∀ (x : Char) (rest2 : List Char), charIsNumeric x = true →
      charIsAsciiDigit x = false →
      lex_number ((c :: cs) ++ x :: rest2) = Option.none := by
  have hall : ∀ x ∈ (c :: cs), charIsAsciiDigit x = true := by
    intro x hx
    rcases List.mem_cons.mp hx with rfl | hx2
    · exact hc
    · exact hcs x hx2
  have hwrap : (c :: cs).foldl (fun v x => wrap32 (v * 10 + ((x.toNat : Int) - 48))) 0 =
      spec_digit_value (c :: cs) := by
    have := digits_wrap_foldl_eq_pure (c :: cs) 0 hall (by norm_num)
      (by simpa [spec_digit_value] using hb)
    simpa [spec_digit_value] using this
  have he2 : charIsNumeric e = false := by
    rcases hx : charIsNumeric e
    · rfl
    · exact absurd (numeric_ascii_digit e heA hx) (by simp [he])
  have hnum_eoi : lex_number (c :: cs) =
      some (Token.new (Ty.Number (spec_digit_value (c :: cs))), []) := by
    simp only [lex_number]
    rw [lex_number_go_digits_eoi (c :: cs) 0 hall, hwrap]
  have hnum_stop : lex_number ((c :: cs) ++ e :: rest) =
      some (Token.new (Ty.Number (spec_digit_value (c :: cs))), e :: rest) := by
    simp only [lex_number]
    rw [lex_number_go_digits_stop (c :: cs) e rest 0 hall he2, hwrap]
  refine ⟨?_, hnum_stop, ?_⟩
  · have hq : ¬c = '"' := by
      intro hq
      subst hq
      exact absurd hc (by decide)
    rw [lex_helper_digit c cs _ [] hq hc hnum_eoi, lex_helper_nil]
    rfl
  · intro x rest2 hx1 hx2
    simp only [lex_number]
    rw [lex_number_go_abort (c :: cs) x rest2 0 hall hx1 hx2]

/-- C6, witness: the amended number-scanner theorem applied to the run
`311` followed by the ASCII non-digit `x`, and its abort half applied to
the Unicode numeric follower `٣`. -/
theorem C6_witness :
    lex_helper ['3', '1', '1'] =
      some [Token.new (Ty.Number (spec_digit_value ['3', '1', '1']))] ∧
    lex_number (['3', '1', '1'] ++ ['x', 'y']) =
      some (Token.new (Ty.Number (spec_digit_value ['3', '1', '1'])), ['x', 'y']) ∧
    lex_number (['3', '1', '1'] ++ ['٣']) = Option.none := by
  have h := C6_amended_number_scanner '3' ['1', '1'] 'x' ['y'] (by decide) (by decide)
    (by decide) (by decide) (by decide)
  exact ⟨h.1, h.2.1, h.2.2 '٣' [] (by decide) (by decide)⟩

/-- C7: when the string scanner hits end-of-input or a newline before a
closing quote, no token is emitted for the literal, no error reaches the
caller, and lexing resumes immediately after the failure point; in
particular an unterminated literal at end-of-input yields an empty output
sequence. -/
theorem C7_unterminated_string_dropped (s rest : List Char)
    (h : ∀ c ∈ s, c ≠ '"' ∧ c ≠ '
') :
    lex (String.mk ('"' :: s)) = some [] ∧
    lex_helper ('"' :: (s ++ '
' :: rest)) = lex_helper rest := by
  constructor
  · have herr : lex_string s = (Except.error ("Non-terminated String"), []) := by
      have := lex_string_go_eoi s [] h
      simpa [lex_string] using this
    simp only [lex]
    rw [lex_helper_quote_err s _ [] herr, lex_helper_nil]
  · have herr : lex_string (s ++ '
' :: rest) =
        (Except.error ("Non-terminated String"), rest) := by
      have := lex_string_go_newline s rest [] h
      simpa [lex_string] using this
    rw [lex_helper_quote_err (s ++ '
' :: rest) _ rest herr]

/-- C7, witness: lexing a quote followed by `meow` with no closing quote
yields the empty output sequence. -/
theorem C7_witness :
    lex (String.mk ['"', 'm', 'e', 'o', 'w']) = some [] :=
  (C7_unterminated_string_dropped ['m', 'e', 'o', 'w'] [] (by decide)).1

/-- C8: for every quote- and newline-free character sequence `s`, lexing a
double quote, then `s`, then a double quote yields exactly one token,
`StringLiteral(s)`, containing the characters between the quotes verbatim. -/
theorem C8_string_literal_verbatim (s : List Char) (h : ∀ c ∈ s, c ≠ '"' ∧ c ≠ '
') :
    lex (String.mk ('"' :: (s ++ ['"']))) =
      some [Token.new (Ty.String (String.mk s))] := by
  have hok : lex_string (s ++ '"' :: []) =
      (Except.ok (Token.new (Ty.String (String.mk s))), []) := by
    have := lex_string_go_closed s [] [] h
    simpa [lex_string] using this
  simp only [lex]
  rw [lex_helper_quote_ok (s ++ ['"']) _ [] hok, lex_helper_nil]
  rfl

/-- C8, witness: lexing a double-quoted `meow` yields exactly one
`StringLiteral` with content `meow`. -/
theorem C8_witness :
    lex (String.mk ['"', 'm', 'e', 'o', 'w', '"']) =
      some [Token.new (Ty.String (String.mk ['m', 'e', 'o', 'w']))] :=
  C8_string_literal_verbatim ['m', 'e', 'o', 'w'] (by decide)

/-- C10: the word scanner never produces a `None`-typed token: whenever the
accumulated word is contained in the keyword table, `Keyword.from_str`
returns a keyword kind other than `Keyword.None`, so the `Ty.None` arm of
`lex_alphanumeric` is unreachable and the scanner always returns either a
`Keyword` or an `Identifier` token. -/
theorem C10_word_scanner_never_none (chars : List Char) (s : String) :
    (s ∈ KEYWORDS.map Prod.fst → Keyword.from_str s ≠ Keyword.None) ∧
    (lex_alphanumeric chars).1.token_type ≠ Ty.None ∧
    ((∃ k, k ≠ Keyword.None ∧ (lex_alphanumeric chars).1 = Token.new (Ty.Keyword k)) ∨
      (∃ w, (lex_alphanumeric chars).1 = Token.new (Ty.Identifier w))) :=
  ⟨from_str_ne_none_of_mem s, lex_alphanumeric_ne_none chars,
    lex_alphanumeric_classify chars⟩

/-- C10, witness: the word-scanner safety theorem applied to the word
`if`. -/
theorem C10_witness :
    Keyword.from_str (String.mk ['i', 'f']) ≠ Keyword.None ∧
    (lex_alphanumeric ['i', 'f']).1.token_type ≠ Ty.None :=
  ⟨(C10_word_scanner_never_none ['i', 'f'] (String.mk ['i', 'f'])).1 (by decide),
   (C10_word_scanner_never_none ['i', 'f'] (String.mk ['i', 'f'])).2.1⟩

end Lexer
